import Mathlib

/-!
Verification of the YARA `hash` module (src/libyara/modules/hash.c).

The module exposes, for each of MD5 / SHA-1 / SHA-256 / checksum32, a
data-range form (`data_md5`, `data_sha1`, `data_sha256`, `data_checksum32`)
that digests a logical `(offset, length)` range spread over an ordered
sequence of memory blocks, and a literal-string form (`string_md5`, ...)
that digests a caller-supplied buffer directly.  Each data-range form keeps
one per-session cache slot (`CACHED_HASH` / `CACHED_CHECKSUM` inside `CACHE`).

The cryptographic engines (MD5_Update/Final etc. from OpenSSL) are external
primitives; they are modelled as an arbitrary function `H` from the fed byte
sequence to the digest, since the incremental Update/Final interface computes
a function of the concatenation of all fed chunks.  checksum32 is modelled
concretely (a wrapping 32-bit byte sum).  Machine integers (`int64_t` offsets
and lengths, `size_t` sizes) are modelled as `Int`/`Nat`; the explicitly
guarded non-negativity of `offset`/`length` makes the C `size_t` casts exact.
The `UNDEFINED` sentinel is the `undef` constructor of `CallResult`, and
`ERROR_WRONG_ARGUMENTS` is the `wrongArgs` constructor.
-/

namespace YaraHash

/-- A `YR_MEMORY_BLOCK`: a base offset in the logical address space plus the
block's bytes (`data`, each a value < 256; `size` is the byte count). -/
structure Segment where
  base : Int
  data : List Nat
deriving DecidableEq

/-- The block's `size` field (`size_t`, equal to the length of `data`). -/
def Segment.size (s : Segment) : Int := s.data.length

/-- The byte slice `block->data + data_offset .. + data_len` read by one loop
iteration of the data-range functions. -/
def Segment.slice (s : Segment) (dOff dLen : Nat) : List Nat :=
  (s.data.drop dOff).take dLen

/-- The block-matching test of the walk loop:
`offset >= block->base && offset < block->base + block->size`. -/
def Segment.contMem (s : Segment) (o : Int) : Prop :=
  s.base ≤ o ∧ o < s.base + s.size

instance (s : Segment) (o : Int) : Decidable (s.contMem o) :=
  decidable_of_iff (s.base ≤ o ∧ o < s.base + s.size) Iff.rfl

/-- A `CACHED_HASH` slot (`isSet`, `offset`, `length`, `digest`); with
`α := Nat` it also models the `CACHED_CHECKSUM` slot, whose `sum` field
plays the role of `digest`. -/
structure CachedHash (α : Type) where
  isSet : Bool
  offset : Int
  length : Int
  digest : α
deriving DecidableEq

/-- Outcome of one data-range call: the C `ERROR_WRONG_ARGUMENTS` early
return, the `UNDEFINED` sentinel, or a proper digest value. -/
inductive CallResult (α : Type) where
  | wrongArgs : CallResult α
  | undef : CallResult α
  | value : α → CallResult α
deriving DecidableEq

/-- The lower bound `context->mem_block->base`: the base of the first block
of the scan context (the C dereferences the first block; the block list is
nonempty in any real scan context). -/
def firstBase : List Segment → Int
  | [] => 0
  | s :: _ => s.base

/-- The `foreach_memory_block` walk shared verbatim by `data_md5`,
`data_sha1` and `data_sha256` (and by `data_checksum32` modulo the
accumulator, see `chkLoop`).  State: remaining blocks, current `offset`,
remaining `length`, the `past_first_block` flag, and the bytes fed to the
digest engine so far.  `none` models falling into an `UNDEFINED` return
(either the gap branch, or loop exit with `past_first_block` still false);
`some bytes` models reaching `Final` with exactly `bytes` fed.  Since each
iteration consumes `data_len = min(length, block->size - data_offset)` and
advances `offset += data_len; length -= data_len`, the sum `offset + length`
is loop-invariant, so the C break test
`block->base + block->size > offset + length` (evaluated after the update)
is written on the unchanged sum. -/
def digestLoop : List Segment → Int → Int → Bool → List Nat → Option (List Nat)
  | [], _, _, past, acc => if past then some acc else none
  | b :: rest, offset, length, past, acc =>
    if b.contMem offset then
      if b.base + b.size > offset + length then
        some (acc ++ b.slice (offset - b.base).toNat
          (min length (b.size - (offset - b.base))).toNat)
      else
        digestLoop rest (offset + min length (b.size - (offset - b.base)))
          (length - min length (b.size - (offset - b.base))) true
          (acc ++ b.slice (offset - b.base).toNat
            (min length (b.size - (offset - b.base))).toNat)
    else if past then none
    else if b.base + b.size > offset + length then none
    else digestLoop rest offset length past acc

/-- The common body of `data_md5` / `data_sha1` / `data_sha256`,
parameterised by the digest engine `H` (Init/Update/Final plus
`digest_to_ascii`, as a function of the concatenated fed bytes).  Mirrors
the C control flow: argument guard, exact-match cache probe, then the block
walk; on a cache miss `cached->offset`/`length` are overwritten *before*
the walk, and `isSet`/`digest` only after a successful finalisation.
One deliberate idealisation: the C stores `cached->digest = digest_ascii`,
a pointer into the finished call's own stack frame (the use-after-scope
defect the spec flags), whereas the model stores the digest value itself;
this is faithful to every observable except the staleness of the
pointed-to bytes on a later hash-form cache hit — see claim C5, which is
therefore a code bug rather than a property of this definition. -/
def data_hash {α : Type} (H : List Nat → α) (segs : List Segment)
    (cached : CachedHash α) (offset length : Int) :
    CallResult α × CachedHash α :=
  if offset < 0 ∨ length < 0 ∨ offset < firstBase segs then
    (.wrongArgs, cached)
  else if cached.isSet = true ∧ cached.offset = offset ∧ cached.length = length then
    (.value cached.digest, cached)
  else
    match digestLoop segs offset length false [] with
    | none => (.undef, { cached with offset := offset, length := length })
    | some bytes =>
      (.value (H bytes),
        { isSet := true, offset := offset, length := length, digest := H bytes })

/-- One hex digit of `sprintf "%02x"`: `0..9 -> '0'..'9'`, `10..15 -> 'a'..'f'`. -/
def hexDigit (n : Nat) : Char :=
  if n < 10 then Char.ofNat (48 + n) else Char.ofNat (87 + n)

/-- The character list written by the `digest_to_ascii` loop: two lowercase
hex digits per digest byte (`digest[i] / 16` and `digest[i] % 16`). -/
def hexChars : List Nat → List Char
  | [] => []
  | b :: rest => hexDigit (b / 16) :: hexDigit (b % 16) :: hexChars rest

/-- Embeds `digest_to_ascii`: the raw digest bytes rendered as a lowercase
hexadecimal string (the terminating NUL is not part of the string value). -/
def digest_to_ascii (digest : List Nat) : String :=
  String.mk (hexChars digest)

/-- Embeds `string_md5`: MD5 over the literal argument bytes, rendered by
`digest_to_ascii`.  `MD5` stands for the external engine
(`MD5_Init`/`Update`/`Final`), producing the 16 raw digest bytes. -/
def string_md5 (MD5 : List Nat → List Nat) (s : List Nat) : String :=
  digest_to_ascii (MD5 s)

/-- Embeds `string_sha1` (20 raw digest bytes from the external engine). -/
def string_sha1 (SHA1 : List Nat → List Nat) (s : List Nat) : String :=
  digest_to_ascii (SHA1 s)

/-- Embeds `string_sha256` (32 raw digest bytes from the external engine). -/
def string_sha256 (SHA256 : List Nat → List Nat) (s : List Nat) : String :=
  digest_to_ascii (SHA256 s)

/-- One step of the checksum loops: `checksum += byte` on a `uint32_t`. -/
def checksum32Update (acc b : Nat) : Nat := (acc + b) % 2 ^ 32

/-- The wrapping 32-bit byte sum computed by both checksum32 forms. -/
def checksum32 (bytes : List Nat) : Nat := bytes.foldl checksum32Update 0

/-- Embeds `string_checksum32`: `for (i...) checksum += s->c_string[i]` on a
`uint32_t` accumulator starting from 0. -/
def string_checksum32 (s : List Nat) : Nat := checksum32 s

/-- The `foreach_memory_block` walk of `data_checksum32`: identical control
flow to `digestLoop`, but accumulating the wrapping `uint32_t` byte sum
in place of the fed-byte list. -/
def chkLoop : List Segment → Int → Int → Bool → Nat → Option Nat
  | [], _, _, past, acc => if past then some acc else none
  | b :: rest, offset, length, past, acc =>
    if b.contMem offset then
      if b.base + b.size > offset + length then
        some (List.foldl checksum32Update acc
          (b.slice (offset - b.base).toNat
            (min length (b.size - (offset - b.base))).toNat))
      else
        chkLoop rest (offset + min length (b.size - (offset - b.base)))
          (length - min length (b.size - (offset - b.base))) true
          (List.foldl checksum32Update acc
            (b.slice (offset - b.base).toNat
              (min length (b.size - (offset - b.base))).toNat))
    else if past then none
    else if b.base + b.size > offset + length then none
    else chkLoop rest offset length past acc

/-- Embeds `data_checksum32`: argument guard, exact-match probe of the
`CACHED_CHECKSUM` slot, the accumulating walk, and the cache writes
(`offset`/`length` before the walk, `isSet`/`sum` only on success). -/
def data_checksum32 (segs : List Segment) (cached : CachedHash Nat)
    (offset length : Int) : CallResult Nat × CachedHash Nat :=
  if offset < 0 ∨ length < 0 ∨ offset < firstBase segs then
    (.wrongArgs, cached)
  else if cached.isSet = true ∧ cached.offset = offset ∧ cached.length = length then
    (.value cached.digest, cached)
  else
    match chkLoop segs offset length false 0 with
    | none => (.undef, { cached with offset := offset, length := length })
    | some sum =>
      (.value sum,
        { isSet := true, offset := offset, length := length, digest := sum })

/-- Embeds `data_md5` (engine abstract, finalisation = raw digest bytes
rendered by `digest_to_ascii`). -/
def data_md5 (MD5 : List Nat → List Nat) (segs : List Segment)
    (cached : CachedHash String) (offset length : Int) :
    CallResult String × CachedHash String :=
  data_hash (fun bs => digest_to_ascii (MD5 bs)) segs cached offset length

/-- Embeds `data_sha1`. -/
def data_sha1 (SHA1 : List Nat → List Nat) (segs : List Segment)
    (cached : CachedHash String) (offset length : Int) :
    CallResult String × CachedHash String :=
  data_hash (fun bs => digest_to_ascii (SHA1 bs)) segs cached offset length

/-- Embeds `data_sha256`. -/
def data_sha256 (SHA256 : List Nat → List Nat) (segs : List Segment)
    (cached : CachedHash String) (offset length : Int) :
    CallResult String × CachedHash String :=
  data_hash (fun bs => digest_to_ascii (SHA256 bs)) segs cached offset length

/-- The `CACHE` struct: one independent slot per algorithm. -/
structure CACHE where
  md5 : CachedHash String
  sha1 : CachedHash String
  sha256 : CachedHash String
  crc32 : CachedHash Nat
deriving DecidableEq

/-- Modelled from the spec: `module_load` allocates the per-session `CACHE`
with `yr_malloc` (libyara/mem.c, outside src/); the spec states the cache is
"Created empty when the owning session/module instance is initialized", so
allocation yields a cache with every slot unset. -/
def module_load : CACHE :=
  { md5 := ⟨false, 0, 0, ""⟩
    sha1 := ⟨false, 0, 0, ""⟩
    sha256 := ⟨false, 0, 0, ""⟩
    crc32 := ⟨false, 0, 0, 0⟩ }

/-- Session-level `data_md5`: reads and writes only the `md5` slot of the
module's `CACHE` (`cached_md5 = &cache->md5`). -/
def hash_md5 (MD5 : List Nat → List Nat) (segs : List Segment) (cache : CACHE)
    (offset length : Int) : CallResult String × CACHE :=
  let r := data_md5 MD5 segs cache.md5 offset length
  (r.1, { cache with md5 := r.2 })

/-- Session-level `data_sha1` (`cached_sha1 = &cache->sha1`). -/
def hash_sha1 (SHA1 : List Nat → List Nat) (segs : List Segment) (cache : CACHE)
    (offset length : Int) : CallResult String × CACHE :=
  let r := data_sha1 SHA1 segs cache.sha1 offset length
  (r.1, { cache with sha1 := r.2 })

/-- Session-level `data_sha256` (`cached_sha256 = &cache->sha256`). -/
def hash_sha256 (SHA256 : List Nat → List Nat) (segs : List Segment)
    (cache : CACHE) (offset length : Int) : CallResult String × CACHE :=
  let r := data_sha256 SHA256 segs cache.sha256 offset length
  (r.1, { cache with sha256 := r.2 })

/-- Session-level `data_checksum32` (`cached_crc32 = &cache->crc32`). -/
def hash_checksum32 (segs : List Segment) (cache : CACHE)
    (offset length : Int) : CallResult Nat × CACHE :=
  let r := data_checksum32 segs cache.crc32 offset length
  (r.1, { cache with crc32 := r.2 })

/-! Specification-side definitions, for stating the claims. -/

/-- The result a data-range call computes when it does not hit the cache:
the guard, then the walk, then finalisation. -/
def uncachedResult {α : Type} (H : List Nat → α) (segs : List Segment)
    (offset length : Int) : CallResult α :=
  if offset < 0 ∨ length < 0 ∨ offset < firstBase segs then .wrongArgs
  else
    match digestLoop segs offset length false [] with
    | none => .undef
    | some bytes => .value (H bytes)

/-- The requested range is fully covered by the segments: every byte
position in `[offset, offset + length)` lies inside some segment. -/
def rangeCovered (segs : List Segment) (offset length : Int) : Bool :=
  (List.range length.toNat).all fun k =>
    segs.any fun s => decide (s.contMem (offset + k))

/-- Follows the maximal run of back-to-back segments starting at extent
`e`: consumes segments while `base = e`, extending `e` to each one's end;
returns the final extent together with `true` when a further (necessarily
non-adjacent) segment remains, `false` when the list was exhausted. -/
def extendRun : List Segment → Int → Int × Bool
  | [], e => (e, false)
  | s :: rest, e => if s.base = e then extendRun rest (s.base + s.size) else (e, true)

/-- Finds the segment containing `o` and follows the adjacent run from its
end; `none` when no segment contains `o`. -/
def coverChain : List Segment → Int → Option (Int × Bool)
  | [], _ => none
  | s :: rest, o =>
    if s.contMem o then some (extendRun rest (s.base + s.size)) else coverChain rest o

/-- Declarative characterisation of the walk's UNDEFINED outcome (for
ordered, non-overlapping, nonempty segments): no segment contains the start
offset, or the adjacent run from the containing segment ends at or before
`offset + length` with a further non-adjacent segment following it. -/
def undefCond (segs : List Segment) (offset length : Int) : Bool :=
  match coverChain segs offset with
  | none => true
  | some el => el.2 && decide (el.1 ≤ offset + length)

/-- The ordering/non-overlap invariant the module assumes of the block
sequence: each block ends at or before the next one's base. -/
def SegsOrdered (segs : List Segment) : Prop :=
  segs.Pairwise fun s t => s.base + s.size ≤ t.base

instance (segs : List Segment) : Decidable (SegsOrdered segs) :=
  inferInstanceAs (Decidable (List.Pairwise _ _))

/-- Every segment holds at least one byte. -/
def SegsNonNil (segs : List Segment) : Prop := ∀ s ∈ segs, s.data ≠ []

instance (segs : List Segment) : Decidable (SegsNonNil segs) :=
  inferInstanceAs (Decidable (∀ s ∈ segs, s.data ≠ []))

/-- A lowercase hexadecimal digit character. -/
def isHexLower (c : Char) : Bool :=
  (48 ≤ c.toNat && c.toNat ≤ 57) || (97 ≤ c.toNat && c.toNat ≤ 102)

/-! Basic lemmas about the embedded definitions. -/

theorem Segment.size_nonneg (s : Segment) : 0 ≤ s.size := by
  simp [Segment.size]

theorem Segment.size_pos (s : Segment) (h : s.data ≠ []) : 0 < s.size := by
  simp only [Segment.size]
  exact_mod_cast List.length_pos.mpr h

theorem checksum32_append (l₁ l₂ : List Nat) :
    checksum32 (l₁ ++ l₂) = List.foldl checksum32Update (checksum32 l₁) l₂ := by
  simp [checksum32, List.foldl_append]

/-- The checksum walk is the generic walk with the wrapping byte sum folded
over the fed bytes. -/
theorem chkLoop_digestLoop :
    ∀ (segs : List Segment) (o l : Int) (p : Bool) (accL : List Nat),
    chkLoop segs o l p (checksum32 accL) =
      (digestLoop segs o l p accL).map checksum32 := by
  intro segs
  induction segs with
  | nil =>
    intro o l p accL
    simp only [chkLoop, digestLoop]
    cases p <;> simp
  | cons b rest ih =>
    intro o l p accL
    by_cases hc : b.contMem o
    · by_cases hbr : b.base + b.size > o + l
      · simp [chkLoop, digestLoop, hc, hbr, ← checksum32_append]
      · simp only [chkLoop, digestLoop, if_pos hc, if_neg hbr,
          ← checksum32_append, ih]
    · simp only [chkLoop, digestLoop, if_neg hc]
      cases p with
      | true => simp
      | false =>
        by_cases hbr : b.base + b.size > o + l
        · simp [hbr]
        · simp only [Bool.false_eq_true, if_false, if_neg hbr, ih]

/-- The function `data_checksum32` is the generic data-range body
instantiated with the wrapping byte sum as digest engine. -/
theorem data_checksum32_eq (segs : List Segment) (c : CachedHash Nat)
    (o l : Int) :
    data_checksum32 segs c o l = data_hash checksum32 segs c o l := by
  unfold data_checksum32 data_hash
  split_ifs with hg hh
  · rfl
  · rfl
  · have h := chkLoop_digestLoop segs o l false []
    simp only [checksum32, List.foldl_nil] at h
    rw [h]
    rcases digestLoop segs o l false [] with _ | bs <;> simp [checksum32]

/-- If no block contains the starting offset, the walk never sets
`past_first_block` and falls out with UNDEFINED. -/
theorem digestLoop_no_match :
    ∀ (segs : List Segment) (o l : Int) (acc : List Nat),
    (∀ s ∈ segs, ¬ s.contMem o) → digestLoop segs o l false acc = none := by
  intro segs
  induction segs with
  | nil => intro o l acc _; simp [digestLoop]
  | cons b rest ih =>
    intro o l acc h
    have hb : ¬ b.contMem o := h b (by simp)
    simp only [digestLoop, if_neg hb, Bool.false_eq_true, if_false]
    split
    · rfl
    · exact ih o l acc fun s hs => h s (List.mem_cons_of_mem _ hs)

theorem coverChain_eq_none (segs : List Segment) (o : Int)
    (h : ∀ s ∈ segs, ¬ s.contMem o) : coverChain segs o = none := by
  induction segs with
  | nil => rfl
  | cons b rest ih =>
    have hb : ¬ b.contMem o := h b (by simp)
    simp only [coverChain, if_neg hb]
    exact ih fun s hs => h s (List.mem_cons_of_mem _ hs)

theorem extendRun_le (segs : List Segment) : ∀ e : Int, e ≤ (extendRun segs e).1 := by
  induction segs with
  | nil => intro e; simp [extendRun]
  | cons s rest ih =>
    intro e
    by_cases hb : s.base = e
    · simp only [extendRun, if_pos hb]
      calc e ≤ s.base + s.size := by
              have := s.size_nonneg; omega
        _ ≤ (extendRun rest (s.base + s.size)).1 := ih _
    · simp [extendRun, hb]

theorem foldl_checksum32Update_eq (l : List Nat) :
    ∀ a : Nat, a < 2 ^ 32 →
    List.foldl checksum32Update a l = (a + l.sum) % 2 ^ 32 := by
  induction l with
  | nil => intro a ha; simpa using (Nat.mod_eq_of_lt ha).symm
  | cons b l ih =>
    intro a ha
    simp only [List.foldl_cons, List.sum_cons, checksum32Update]
    rw [ih _ (Nat.mod_lt _ (by norm_num)), Nat.mod_add_mod]
    ring_nf

/-- Both checksum32 forms are the plain byte sum reduced modulo `2 ^ 32`. -/
theorem checksum32_eq_sum_mod (l : List Nat) : checksum32 l = l.sum % 2 ^ 32 := by
  simpa using foldl_checksum32Update_eq l 0 (by norm_num)

theorem checksum32_lt (l : List Nat) : checksum32 l < 2 ^ 32 := by
  rw [checksum32_eq_sum_mod]
  exact Nat.mod_lt _ (by norm_num)

/-! Branch equations for the walk and the specification predicates. -/

theorem digestLoop_cons_break {b : Segment} {rest : List Segment}
    {o l : Int} {p : Bool} {acc : List Nat}
    (hc : b.contMem o) (hbr : b.base + b.size > o + l) :
    digestLoop (b :: rest) o l p acc =
      some (acc ++ b.slice (o - b.base).toNat
        (min l (b.size - (o - b.base))).toNat) := by
  rw [digestLoop, if_pos hc, if_pos hbr]

theorem digestLoop_cons_step {b : Segment} {rest : List Segment}
    {o l : Int} {p : Bool} {acc : List Nat}
    (hc : b.contMem o) (hbr : ¬ b.base + b.size > o + l) :
    digestLoop (b :: rest) o l p acc =
      digestLoop rest (o + min l (b.size - (o - b.base)))
        (l - min l (b.size - (o - b.base))) true
        (acc ++ b.slice (o - b.base).toNat
          (min l (b.size - (o - b.base))).toNat) := by
  rw [digestLoop, if_pos hc, if_neg hbr]

theorem digestLoop_cons_gap {b : Segment} {rest : List Segment}
    {o l : Int} {acc : List Nat} (hc : ¬ b.contMem o) :
    digestLoop (b :: rest) o l true acc = none := by
  rw [digestLoop, if_neg hc]; simp

theorem digestLoop_cons_skip_break {b : Segment} {rest : List Segment}
    {o l : Int} {acc : List Nat}
    (hc : ¬ b.contMem o) (hbr : b.base + b.size > o + l) :
    digestLoop (b :: rest) o l false acc = none := by
  rw [digestLoop, if_neg hc]; simp [hbr]

theorem digestLoop_cons_skip {b : Segment} {rest : List Segment}
    {o l : Int} {acc : List Nat}
    (hc : ¬ b.contMem o) (hbr : ¬ b.base + b.size > o + l) :
    digestLoop (b :: rest) o l false acc = digestLoop rest o l false acc := by
  rw [digestLoop, if_neg hc]; simp [hbr]

theorem undefCond_cons_pos {b : Segment} {rest : List Segment} {o l : Int}
    (hc : b.contMem o) :
    undefCond (b :: rest) o l =
      ((extendRun rest (b.base + b.size)).2 &&
        decide ((extendRun rest (b.base + b.size)).1 ≤ o + l)) := by
  rw [undefCond, coverChain, if_pos hc]

theorem undefCond_cons_neg {b : Segment} {rest : List Segment} {o l : Int}
    (hc : ¬ b.contMem o) :
    undefCond (b :: rest) o l = undefCond rest o l := by
  simp only [undefCond]
  rw [coverChain, if_neg hc]

/-- Once `past_first_block` is set, the walk goes UNDEFINED exactly when the
adjacent run from the current offset stops (at or before the requested end)
because a further non-adjacent block follows.  Here all remaining blocks lie
at or after `o`, as the consumption invariant guarantees. -/
theorem digestLoop_past :
    ∀ (segs : List Segment) (o l : Int) (acc : List Nat),
    SegsOrdered segs → SegsNonNil segs →
    (∀ s ∈ segs, o ≤ s.base) → 0 ≤ l →
    (digestLoop segs o l true acc = none ↔
      (extendRun segs o).2 = true ∧ (extendRun segs o).1 ≤ o + l) := by
  intro segs
  induction segs with
  | nil =>
    intro o l acc _ _ _ _
    simp [digestLoop, extendRun]
  | cons b rest ih =>
    intro o l acc hord hpos hbase hl
    have hbb : o ≤ b.base := hbase b (by simp)
    have hsz : 0 < b.size := b.size_pos (hpos b (by simp))
    by_cases hb : b.base = o
    · subst hb
    -- the block is back-to-back with the consumed extent, so it matches
      have hc : b.contMem b.base := ⟨le_refl _, by omega⟩
      have hrw : extendRun (b :: rest) b.base = extendRun rest (b.base + b.size) := by
        rw [extendRun, if_pos rfl]
      rw [hrw]
      by_cases hbr : b.base + b.size > b.base + l
      · have hext := extendRun_le rest (b.base + b.size)
        rw [digestLoop_cons_break hc hbr]
        constructor
        · intro h; exact absurd h (by simp)
        · rintro ⟨_, h2⟩; omega
      · have hmin : min l (b.size - (b.base - b.base)) = b.size := by
          rw [sub_self, sub_zero]; exact min_eq_right (by omega)
        rw [digestLoop_cons_step hc hbr, hmin,
          ih (b.base + b.size) (l - b.size) _ hord.of_cons
            (fun s hs => hpos s (List.mem_cons_of_mem _ hs))
            (fun s hs => (List.pairwise_cons.mp hord).1 s hs) (by omega)]
        constructor
        · rintro ⟨h1, h2⟩; exact ⟨h1, by omega⟩
        · rintro ⟨h1, h2⟩; exact ⟨h1, by omega⟩
    · -- a gap: the block starts strictly beyond the current offset
      have hnc : ¬ b.contMem o := fun h => hb (le_antisymm h.1 hbb)
      rw [digestLoop_cons_gap hnc, extendRun, if_neg hb]
      constructor
      · intro _; exact ⟨rfl, by omega⟩
      · intro _; rfl

/-- Main characterisation of the walk: starting with `past_first_block`
false, the walk ends UNDEFINED iff `undefCond` holds, for an ordered,
non-overlapping sequence of nonempty blocks and a non-negative remaining
length. -/
theorem digestLoop_none_iff :
    ∀ (segs : List Segment) (o l : Int) (acc : List Nat),
    SegsOrdered segs → SegsNonNil segs → 0 ≤ l →
    (digestLoop segs o l false acc = none ↔ undefCond segs o l = true) := by
  intro segs
  induction segs with
  | nil =>
    intro o l acc _ _ _
    simp [digestLoop, undefCond, coverChain]
  | cons b rest ih =>
    intro o l acc hord hpos hl
    by_cases hc : b.contMem o
    · by_cases hbr : b.base + b.size > o + l
      · have hext := extendRun_le rest (b.base + b.size)
        rw [digestLoop_cons_break hc hbr, undefCond_cons_pos hc]
        constructor
        · intro h; exact absurd h (by simp)
        · intro h
          simp only [Bool.and_eq_true, decide_eq_true_eq] at h
          omega
      · have hmin : min l (b.size - (o - b.base)) = b.size - (o - b.base) :=
          min_eq_right (by omega)
        have e1 : o + min l (b.size - (o - b.base)) = b.base + b.size := by
          rw [hmin]; ring
        have e2 : l - min l (b.size - (o - b.base)) = o + l - (b.base + b.size) := by
          rw [hmin]; ring
        rw [digestLoop_cons_step hc hbr, e1, e2,
          digestLoop_past rest (b.base + b.size) (o + l - (b.base + b.size)) _
            hord.of_cons (fun s hs => hpos s (List.mem_cons_of_mem _ hs))
            (fun s hs => (List.pairwise_cons.mp hord).1 s hs) (by omega),
          undefCond_cons_pos hc]
        simp only [Bool.and_eq_true, decide_eq_true_eq]
        constructor
        · rintro ⟨h1, h2⟩; exact ⟨h1, by omega⟩
        · rintro ⟨h1, h2⟩; exact ⟨h1, by omega⟩
    · by_cases hbr : b.base + b.size > o + l
      · -- the head block already reaches past the requested end, so no
        -- later block can contain the offset either: UNDEFINED both ways
        have hrest : ∀ s ∈ rest, ¬ s.contMem o := by
          intro s hs hmem
          have := (List.pairwise_cons.mp hord).1 s hs
          have hco : ¬ (b.base ≤ o ∧ o < b.base + b.size) := hc
          obtain ⟨hm1, hm2⟩ := hmem
          omega
        rw [digestLoop_cons_skip_break hc hbr, undefCond_cons_neg hc]
        simp [undefCond, coverChain_eq_none rest o hrest]
      · rw [digestLoop_cons_skip hc hbr,
          ih o l acc hord.of_cons
            (fun s hs => hpos s (List.mem_cons_of_mem _ hs)) hl,
          undefCond_cons_neg hc]

/-- A zero-length request whose offset lies inside some block feeds no bytes
and finalises immediately: the matching block consumes `min(0, ...) = 0`
bytes and its end necessarily lies strictly beyond `offset + 0`. -/
theorem digestLoop_zero_len :
    ∀ (segs : List Segment) (o : Int) (acc : List Nat),
    SegsOrdered segs → (∃ s ∈ segs, s.contMem o) →
    digestLoop segs o 0 false acc = some acc := by
  intro segs
  induction segs with
  | nil => intro o acc _ h; simp at h
  | cons b rest ih =>
    intro o acc hord hex
    by_cases hc : b.contMem o
    · have hbr : b.base + b.size > o + 0 := by have := hc.2; omega
      rw [digestLoop_cons_break hc hbr]
      have hmin : min (0 : Int) (b.size - (o - b.base)) = 0 :=
        min_eq_left (by have := hc.1; have := hc.2; omega)
      simp [hmin, Segment.slice]
    · obtain ⟨s, hs, hsc⟩ := hex
      rcases List.mem_cons.mp hs with rfl | hs
      · exact absurd hsc hc
      · have hle : b.base + b.size ≤ s.base := (List.pairwise_cons.mp hord).1 s hs
        have hbr : ¬ b.base + b.size > o + 0 := by have := hsc.1; omega
        rw [digestLoop_cons_skip hc hbr]
        exact ih o acc hord.of_cons ⟨s, hs, hsc⟩

/-! Branch equations for the data-range call body. -/

theorem data_hash_guard {α : Type} (H : List Nat → α) (segs : List Segment)
    (c : CachedHash α) {o l : Int}
    (hg : o < 0 ∨ l < 0 ∨ o < firstBase segs) :
    data_hash H segs c o l = (.wrongArgs, c) := by
  rw [data_hash, if_pos hg]

theorem data_hash_hit {α : Type} (H : List Nat → α) (segs : List Segment)
    (c : CachedHash α) {o l : Int}
    (hg : ¬ (o < 0 ∨ l < 0 ∨ o < firstBase segs))
    (hh : c.isSet = true ∧ c.offset = o ∧ c.length = l) :
    data_hash H segs c o l = (.value c.digest, c) := by
  rw [data_hash, if_neg hg, if_pos hh]

theorem data_hash_miss {α : Type} (H : List Nat → α) (segs : List Segment)
    (c : CachedHash α) {o l : Int}
    (hg : ¬ (o < 0 ∨ l < 0 ∨ o < firstBase segs))
    (hh : ¬ (c.isSet = true ∧ c.offset = o ∧ c.length = l)) :
    data_hash H segs c o l =
      match digestLoop segs o l false [] with
      | none => (.undef, { c with offset := o, length := l })
      | some bytes =>
        (.value (H bytes),
          { isSet := true, offset := o, length := l, digest := H bytes }) := by
  rw [data_hash, if_neg hg, if_neg hh]

/-- Whenever the cache probe misses, the returned result is the pure
computation from the arguments and the block sequence alone. -/
theorem data_hash_fst_of_miss {α : Type} (H : List Nat → α)
    (segs : List Segment) (c : CachedHash α) (o l : Int)
    (hh : ¬ (c.isSet = true ∧ c.offset = o ∧ c.length = l)) :
    (data_hash H segs c o l).1 = uncachedResult H segs o l := by
  by_cases hg : o < 0 ∨ l < 0 ∨ o < firstBase segs
  · rw [data_hash_guard H segs c hg, uncachedResult, if_pos hg]
  · rw [data_hash_miss H segs c hg hh, uncachedResult, if_neg hg]
    cases digestLoop segs o l false [] <;> rfl

/-! Lemmas about the hexadecimal rendering. -/

theorem hexChars_length : ∀ l : List Nat, (hexChars l).length = 2 * l.length := by
  intro l
  induction l with
  | nil => rfl
  | cons b r ih => simp [hexChars, ih]; omega

theorem isHexLower_hexDigit : ∀ n : Nat, n < 16 → isHexLower (hexDigit n) = true := by
  decide

theorem hexChars_all_hex :
    ∀ l : List Nat, (∀ b ∈ l, b < 256) → (hexChars l).all isHexLower = true := by
  intro l
  induction l with
  | nil => intro _; rfl
  | cons b r ih =>
    intro h
    have hb : b < 256 := h b (by simp)
    simp only [hexChars, List.all_cons, Bool.and_eq_true]
    refine ⟨isHexLower_hexDigit _ (by omega), isHexLower_hexDigit _ (by omega),
      ih fun x hx => h x (List.mem_cons_of_mem _ hx)⟩

theorem digest_to_ascii_length (l : List Nat) :
    (digest_to_ascii l).length = 2 * l.length := by
  simpa [digest_to_ascii, String.length] using hexChars_length l

theorem digest_to_ascii_all_hex (l : List Nat) (h : ∀ b ∈ l, b < 256) :
    (digest_to_ascii l).data.all isHexLower = true := by
  simpa [digest_to_ascii] using hexChars_all_hex l h

theorem uncachedResult_undef_iff {α : Type} (H : List Nat → α)
    (segs : List Segment) (o l : Int)
    (hg : ¬ (o < 0 ∨ l < 0 ∨ o < firstBase segs)) :
    (uncachedResult H segs o l = .undef ↔
      digestLoop segs o l false [] = none) := by
  rw [uncachedResult, if_neg hg]
  cases digestLoop segs o l false [] <;> simp

/-- A digest function used to instantiate the abstract engines on concrete
inputs: it returns `n` zero bytes regardless of the input. -/
def stubDigest (n : Nat) : List Nat → List Nat := fun _ => List.replicate n 0

/-! Settling the claims. -/

/-- Claim C1, code-bug evaluation: the request `(0, 4)` is fully covered (it
lies inside the first segment `[0, 4)` of an ordered sequence), yet
`data_checksum32` on a fresh cache returns UNDEFINED instead of the digest
`.value (checksum32 [97, 98, 99, 100])` of the covered bytes.  The break
test `block->base + block->size > offset + length` is strict, so when the
range ends exactly at a block boundary the walk goes on to examine the next,
non-adjacent block `[8, 12)` and wrongly takes the gap branch — even though
the remaining length is zero and, contrary to the branch's own comment, the
requested range contains no gap. -/
theorem c1_fully_covered_range_code_bug :
    rangeCovered [⟨0, [97, 98, 99, 100]⟩, ⟨8, [101, 102, 103, 104]⟩] 0 4 = true ∧
    SegsOrdered [⟨0, [97, 98, 99, 100]⟩, ⟨8, [101, 102, 103, 104]⟩] ∧
    (data_checksum32 [⟨0, [97, 98, 99, 100]⟩, ⟨8, [101, 102, 103, 104]⟩]
      ⟨false, 0, 0, 0⟩ 0 4).1 = .undef ∧
    (CallResult.undef : CallResult Nat) ≠ .value (checksum32 [97, 98, 99, 100]) := by
  refine ⟨by decide, by decide, by decide, by decide⟩

/-- Claim C2, counterexample: the claim says the result is undefined exactly
when the range is not fully covered by contiguous segment data, but a
request `(0, 20)` running past the end of the (adjacent, fully consumed)
segment list is *not* fully covered and still yields a defined value — the
digest of the covered prefix. -/
theorem c2_undefined_iff_uncovered_cex :
    rangeCovered [⟨0, [97, 98, 99, 100]⟩, ⟨4, [101, 102, 103, 104]⟩] 0 20 = false ∧
    (data_checksum32 [⟨0, [97, 98, 99, 100]⟩, ⟨4, [101, 102, 103, 104]⟩]
      ⟨false, 0, 0, 0⟩ 0 20).1 = .value 804 ∧
    (CallResult.value 804 : CallResult Nat) ≠ .undef := by
  refine ⟨by decide, by decide, by decide⟩

/-- Claim C2, amended: for an ordered sequence of nonempty blocks and a
cache-missing request with valid arguments, a data-range call returns
UNDEFINED iff either no block contains the starting offset, or the run of
back-to-back blocks through the one containing the offset ends at or before
`offset + length` while a further non-adjacent block follows it
(`undefCond`).  In particular, when the block list is exhausted before the
range is covered, the call returns the digest of the covered prefix rather
than UNDEFINED.  Holds for the generic hash body (hence md5, sha1, sha256)
and for checksum32. -/
theorem c2_undefined_characterization {α : Type} (H : List Nat → α)
    (segs : List Segment) (c : CachedHash α) (cC : CachedHash Nat) (o l : Int)
    (hord : SegsOrdered segs) (hpos : SegsNonNil segs)
    (hg : ¬ (o < 0 ∨ l < 0 ∨ o < firstBase segs))
    (hh : ¬ (c.isSet = true ∧ c.offset = o ∧ c.length = l))
    (hhC : ¬ (cC.isSet = true ∧ cC.offset = o ∧ cC.length = l)) :
    ((data_hash H segs c o l).1 = .undef ↔ undefCond segs o l = true) ∧
    ((data_checksum32 segs cC o l).1 = .undef ↔ undefCond segs o l = true) := by
  have hl : 0 ≤ l := by
    rcases lt_or_le l 0 with h | h
    · exact absurd (Or.inr (Or.inl h)) hg
    · exact h
  constructor
  · rw [data_hash_fst_of_miss H segs c o l hh]
    exact (uncachedResult_undef_iff H segs o l hg).trans
      (digestLoop_none_iff segs o l [] hord hpos hl)
  · rw [data_checksum32_eq, data_hash_fst_of_miss checksum32 segs cC o l hhC]
    exact (uncachedResult_undef_iff checksum32 segs o l hg).trans
      (digestLoop_none_iff segs o l [] hord hpos hl)

theorem c2_undefined_characterization_wit :
    ((data_hash checksum32 [⟨0, [1, 2]⟩] ⟨false, 0, 0, 0⟩ 0 1).1 = .undef ↔
      undefCond [⟨0, [1, 2]⟩] 0 1 = true) ∧
    ((data_checksum32 [⟨0, [1, 2]⟩] ⟨false, 0, 0, 0⟩ 0 1).1 = .undef ↔
      undefCond [⟨0, [1, 2]⟩] 0 1 = true) :=
  c2_undefined_characterization checksum32 [⟨0, [1, 2]⟩] ⟨false, 0, 0, 0⟩
    ⟨false, 0, 0, 0⟩ 0 1 (by decide) (by decide) (by decide) (by decide) (by decide)

/-- Claim C3, code-bug evaluation: a successful `checksum32(0, 4)` call
stores `(true, 0, 4, 100)`; a following `checksum32(100, 5)` call lands
in a region no segment covers and returns UNDEFINED — but it has already
overwritten the slot's `offset`/`length` with `(100, 5)`, leaving the cache
different from how it found it; consequently repeating the failed
`(100, 5)` request now *hits* the cache and returns the stale digest `100`
computed for the range `(0, 4)`.  The claim that an undefined call leaves
every cache field untouched is what the code's own caching discipline
(store only after success, probe by exact match) requires, and the code
breaks it by writing `cached->offset`/`length` before the walk. -/
theorem c3_cache_mutation_on_undefined_code_bug :
    data_checksum32 [⟨0, [10, 20, 30, 40]⟩] ⟨false, 0, 0, 0⟩ 0 4 =
      (.value 100, ⟨true, 0, 4, 100⟩) ∧
    data_checksum32 [⟨0, [10, 20, 30, 40]⟩] ⟨true, 0, 4, 100⟩ 100 5 =
      (.undef, ⟨true, 100, 5, 100⟩) ∧
    (⟨true, 100, 5, 100⟩ : CachedHash Nat) ≠ ⟨true, 0, 4, 100⟩ ∧
    data_checksum32 [⟨0, [10, 20, 30, 40]⟩] ⟨true, 100, 5, 100⟩ 100 5 =
      (.value 100, ⟨true, 100, 5, 100⟩) := by
  refine ⟨by decide, by decide, by decide, by decide⟩

/-- Claim C4: a negative offset, a negative length, or an offset below the
first block's base makes every data-range form return the
`ERROR_WRONG_ARGUMENTS` outcome immediately — an outcome distinct from the
UNDEFINED sentinel and from every digest value — with the cache entry
returned exactly as passed in and no dependence on the block contents. -/
theorem c4_invalid_args_reject {α : Type} (H : List Nat → α)
    (segs : List Segment) (c : CachedHash α) (cC : CachedHash Nat) (o l : Int)
    (hg : o < 0 ∨ l < 0 ∨ o < firstBase segs) :
    data_hash H segs c o l = (.wrongArgs, c) ∧
    data_checksum32 segs cC o l = (.wrongArgs, cC) ∧
    (CallResult.wrongArgs : CallResult α) ≠ .undef ∧
    ∀ a : α, (CallResult.wrongArgs : CallResult α) ≠ .value a := by
  refine ⟨data_hash_guard H segs c hg, ?_, by simp, fun a => by simp⟩
  rw [data_checksum32_eq]
  exact data_hash_guard checksum32 segs cC hg

theorem c4_invalid_args_reject_wit :
    data_hash checksum32 [⟨4, [1, 2]⟩] ⟨false, 0, 0, 0⟩ 2 3 =
      (.wrongArgs, ⟨false, 0, 0, 0⟩) ∧
    data_checksum32 [⟨4, [1, 2]⟩] ⟨true, 2, 3, 9⟩ 2 3 =
      (.wrongArgs, ⟨true, 2, 3, 9⟩) := by
  have h := c4_invalid_args_reject checksum32 [⟨4, [1, 2]⟩] ⟨false, 0, 0, 0⟩
    ⟨true, 2, 3, 9⟩ 2 3 (by decide)
  exact ⟨h.1, h.2.1⟩

/-- A successful call through the generic body leaves the slot in hit
position for the same request: repeating it returns the stored value and
the unchanged cache state, for any block sequence with the same first-block
base.  This describes the cache *logic* only; whether the stored result is
usable is a separate question of what the C actually stores (see C5). -/
theorem data_hash_repeat_of_value {α : Type} (H : List Nat → α)
    (segs : List Segment) (c c1 : CachedHash α) (o l : Int) (d : α)
    (h : data_hash H segs c o l = (.value d, c1)) :
    data_hash H segs c1 o l = (.value d, c1) ∧
    ∀ segs2 : List Segment, firstBase segs2 = firstBase segs →
      data_hash H segs2 c1 o l = (.value d, c1) := by
  by_cases hg : o < 0 ∨ l < 0 ∨ o < firstBase segs
  · rw [data_hash_guard H segs c hg] at h
    simp at h
  · have key : c1.isSet = true ∧ c1.offset = o ∧ c1.length = l ∧ c1.digest = d := by
      by_cases hh : c.isSet = true ∧ c.offset = o ∧ c.length = l
      · rw [data_hash_hit H segs c hg hh] at h
        simp only [Prod.mk.injEq, CallResult.value.injEq] at h
        obtain ⟨hd, hc⟩ := h
        rw [← hc]
        exact ⟨hh.1, hh.2.1, hh.2.2, hd⟩
      · rw [data_hash_miss H segs c hg hh] at h
        rcases hdl : digestLoop segs o l false [] with _ | bs
        · rw [hdl] at h; simp at h
        · rw [hdl] at h
          simp only [Prod.mk.injEq, CallResult.value.injEq] at h
          obtain ⟨hd, hc⟩ := h
          rw [← hc]
          exact ⟨rfl, rfl, rfl, hd⟩
    obtain ⟨k1, k2, k3, k4⟩ := key
    have main : ∀ segs2 : List Segment, firstBase segs2 = firstBase segs →
        data_hash H segs2 c1 o l = (.value d, c1) := by
      intro segs2 hfb
      have hg2 : ¬ (o < 0 ∨ l < 0 ∨ o < firstBase segs2) := by rw [hfb]; exact hg
      rw [data_hash_hit H segs2 c1 hg2 ⟨k1, k2, k3⟩, k4]
    exact ⟨main segs rfl, main⟩

/-- Claim C5, code-bug evidence: the claim holds for checksum32 — the one
algorithm whose slot stores the result by value in the C
(`cached_crc32->sum = checksum` copies the integer) — proved here: after a
successful `data_checksum32` call, the identical repeat returns the
bit-identical value and unchanged cache, and its outcome is the same for
any block sequence with the same first-block base, i.e. it is served from
the cache without walking the blocks.  For md5/sha1/sha256 the C instead
stores `cached->digest = digest_ascii`, a pointer into the finished call's
stack frame, so a repeat hit returns a dangling pointer rather than the
first call's bytes — the use-after-scope defect the spec itself flags;
that failure is a memory-lifetime matter with no value-level counterpart
in this embedding. -/
theorem c5_checksum32_repeat_cached (segs : List Segment)
    (c c1 : CachedHash Nat) (o l : Int) (d : Nat)
    (h : data_checksum32 segs c o l = (.value d, c1)) :
    data_checksum32 segs c1 o l = (.value d, c1) ∧
    ∀ segs2 : List Segment, firstBase segs2 = firstBase segs →
      data_checksum32 segs2 c1 o l = (.value d, c1) := by
  rw [data_checksum32_eq] at h
  have h2 := data_hash_repeat_of_value checksum32 segs c c1 o l d h
  refine ⟨?_, fun segs2 hfb => ?_⟩
  · rw [data_checksum32_eq]; exact h2.1
  · rw [data_checksum32_eq]; exact h2.2 segs2 hfb

theorem c5_checksum32_repeat_cached_wit :
    data_checksum32 [⟨0, [5]⟩] ⟨true, 0, 1, 5⟩ 0 1 =
      (.value 5, ⟨true, 0, 1, 5⟩) ∧
    data_checksum32 [⟨0, [7, 7]⟩] ⟨true, 0, 1, 5⟩ 0 1 =
      (.value 5, ⟨true, 0, 1, 5⟩) := by
  have h := c5_checksum32_repeat_cached [⟨0, [5]⟩] ⟨false, 0, 0, 0⟩
    ⟨true, 0, 1, 5⟩ 0 1 5 (by decide)
  exact ⟨h.1, h.2 [⟨0, [7, 7]⟩] rfl⟩

/-- Claim C6, counterexample: a cached value can be returned for a request
other than the one that produced it.  The checksum slot's value `100` is
produced by the request `(0, 4)`; a later `(100, 5)` call over an uncovered
range returns UNDEFINED but overwrites the slot's `offset`/`length`, so
repeating `(100, 5)` hits the cache and is served the value produced for
`(0, 4)`. -/
theorem c6_stale_cache_hit_cex :
    data_checksum32 [⟨0, [10, 20, 30, 40]⟩] ⟨false, 0, 0, 0⟩ 0 4 =
      (.value (checksum32 [10, 20, 30, 40]), ⟨true, 0, 4, 100⟩) ∧
    (data_checksum32 [⟨0, [10, 20, 30, 40]⟩] ⟨true, 0, 4, 100⟩ 100 5).1 =
      .undef ∧
    (data_checksum32 [⟨0, [10, 20, 30, 40]⟩]
      (data_checksum32 [⟨0, [10, 20, 30, 40]⟩] ⟨true, 0, 4, 100⟩ 100 5).2
      100 5).1 = .value (checksum32 [10, 20, 30, 40]) ∧
    rangeCovered [⟨0, [10, 20, 30, 40]⟩] 100 5 = false := by
  refine ⟨by decide, by decide, by decide, by decide⟩

/-- Claim C6, amended: a cache hit for an algorithm at `(offset, length)`
requires that algorithm's slot to be set with stored `offset` and `length`
fields equal to the request (a merely overlapping range never hits: on any
mismatch the result is computed from the blocks, independent of the stored
digest), and each algorithm owns an independent slot — an md5 call leaves
the sha1/sha256/crc32 entries untouched, a sha256 call leaves the others
untouched, and an md5 call's result depends on the cache only through the
md5 slot.  However, because a failed call overwrites the slot's
`offset`/`length`, a hit does not guarantee the stored value was produced
for the hitting request (see the counterexample). -/
theorem c6_cache_exact_match_isolation {α : Type} (H : List Nat → α)
    (F G : List Nat → List Nat) (segs : List Segment) (c : CachedHash α)
    (K K2 : CACHE) (o l : Int)
    (hg : ¬ (o < 0 ∨ l < 0 ∨ o < firstBase segs))
    (hmd5 : K.md5 = K2.md5) :
    ((c.isSet = true ∧ c.offset = o ∧ c.length = l) →
      data_hash H segs c o l = (.value c.digest, c)) ∧
    (¬ (c.isSet = true ∧ c.offset = o ∧ c.length = l) →
      (data_hash H segs c o l).1 = uncachedResult H segs o l) ∧
    ((hash_md5 F segs K o l).2.sha1 = K.sha1 ∧
      (hash_md5 F segs K o l).2.sha256 = K.sha256 ∧
      (hash_md5 F segs K o l).2.crc32 = K.crc32) ∧
    ((hash_sha256 G segs K o l).2.md5 = K.md5 ∧
      (hash_sha256 G segs K o l).2.sha1 = K.sha1 ∧
      (hash_sha256 G segs K o l).2.crc32 = K.crc32) ∧
    (hash_md5 F segs K o l).1 = (hash_md5 F segs K2 o l).1 := by
  refine ⟨fun hh => data_hash_hit H segs c hg hh,
    fun hh => data_hash_fst_of_miss H segs c o l hh,
    ⟨rfl, rfl, rfl⟩, ⟨rfl, rfl, rfl⟩, ?_⟩
  simp only [hash_md5, data_md5, hmd5]

theorem c6_cache_exact_match_isolation_wit :
    data_hash checksum32 [⟨0, [9]⟩] ⟨true, 0, 1, 42⟩ 0 1 =
      (.value 42, ⟨true, 0, 1, 42⟩) ∧
    (hash_md5 id [⟨0, [9]⟩] module_load 0 1).2.sha1 = module_load.sha1 ∧
    (hash_sha256 id [⟨0, [9]⟩] module_load 0 1).2.md5 = module_load.md5 := by
  have h := c6_cache_exact_match_isolation checksum32 id id [⟨0, [9]⟩]
    ⟨true, 0, 1, 42⟩ module_load module_load 0 1 (by decide) rfl
  exact ⟨h.1 (by decide), h.2.2.1.1, h.2.2.2.1.1⟩

/-- Claim C7: both checksum32 forms compute the byte sum with a wrapping
unsigned 32-bit accumulator: the literal form returns the input's byte sum
reduced modulo `2 ^ 32`, and a data-range call that resolved the range to
the byte sequence `bs` returns the sum of `bs` modulo `2 ^ 32` — wrapping,
never saturating or failing. -/
theorem c7_checksum32_wraps (s : List Nat) (segs : List Segment)
    (c : CachedHash Nat) (o l : Int) (bs : List Nat)
    (hg : ¬ (o < 0 ∨ l < 0 ∨ o < firstBase segs))
    (hh : ¬ (c.isSet = true ∧ c.offset = o ∧ c.length = l))
    (hbs : digestLoop segs o l false [] = some bs) :
    string_checksum32 s = s.sum % 2 ^ 32 ∧
    (data_checksum32 segs c o l).1 = .value (bs.sum % 2 ^ 32) := by
  refine ⟨checksum32_eq_sum_mod s, ?_⟩
  rw [data_checksum32_eq, data_hash_fst_of_miss checksum32 segs c o l hh,
    uncachedResult, if_neg hg, hbs, ← checksum32_eq_sum_mod]

theorem c7_checksum32_wraps_wit :
    string_checksum32 [255, 255] = ([255, 255] : List Nat).sum % 2 ^ 32 ∧
    (data_checksum32 [⟨0, [255]⟩] ⟨false, 0, 0, 0⟩ 0 1).1 =
      .value (([255] : List Nat).sum % 2 ^ 32) :=
  c7_checksum32_wraps [255, 255] [⟨0, [255]⟩] ⟨false, 0, 0, 0⟩ 0 1 [255]
    (by decide) (by decide) (by decide)

/-- Claim C8: the cache produced by `module_load` has every algorithm's slot
unset, and any call on an unset slot cannot be answered from the cache — its
result is the pure computation from the arguments and block sequence
(`uncachedResult`), independent of the slot's remaining fields.  The
allocation itself is modelled from the spec, since `yr_malloc` lives outside
the analysed source. -/
theorem c8_cache_initially_empty {α : Type} (H : List Nat → α)
    (segs : List Segment) (c : CachedHash α) (o l : Int)
    (h : c.isSet = false) :
    module_load.md5.isSet = false ∧ module_load.sha1.isSet = false ∧
    module_load.sha256.isSet = false ∧ module_load.crc32.isSet = false ∧
    (data_hash H segs c o l).1 = uncachedResult H segs o l := by
  refine ⟨rfl, rfl, rfl, rfl, data_hash_fst_of_miss H segs c o l ?_⟩
  rintro ⟨h1, -, -⟩
  rw [h] at h1
  exact Bool.false_ne_true h1

theorem c8_cache_initially_empty_wit :
    module_load.md5.isSet = false ∧ module_load.sha1.isSet = false ∧
    module_load.sha256.isSet = false ∧ module_load.crc32.isSet = false ∧
    (data_hash checksum32 [⟨0, [1]⟩] ⟨false, 3, 4, 9⟩ 0 1).1 =
      uncachedResult checksum32 [⟨0, [1]⟩] 0 1 :=
  c8_cache_initially_empty checksum32 [⟨0, [1]⟩] ⟨false, 3, 4, 9⟩ 0 1 rfl

/-- Claim C9: the literal-string forms are total functions of the input
bytes alone — they take neither a block sequence nor a cache and have no
UNDEFINED outcome — and the hash forms render the engine's raw digest
through `digest_to_ascii` as a fixed-length lowercase hexadecimal string:
32 characters for MD5 (16 digest bytes), 40 for SHA-1 (20 bytes), 64 for
SHA-256 (32 bytes); `string_checksum32` returns the wrapped byte sum. -/
theorem c9_string_forms_defined_hex (MD5 SHA1 SHA256 : List Nat → List Nat)
    (s : List Nat)
    (h1 : (MD5 s).length = 16) (h1b : ∀ b ∈ MD5 s, b < 256)
    (h2 : (SHA1 s).length = 20) (h2b : ∀ b ∈ SHA1 s, b < 256)
    (h3 : (SHA256 s).length = 32) (h3b : ∀ b ∈ SHA256 s, b < 256) :
    (string_md5 MD5 s).length = 32 ∧
    (string_md5 MD5 s).data.all isHexLower = true ∧
    (string_sha1 SHA1 s).length = 40 ∧
    (string_sha1 SHA1 s).data.all isHexLower = true ∧
    (string_sha256 SHA256 s).length = 64 ∧
    (string_sha256 SHA256 s).data.all isHexLower = true ∧
    string_md5 MD5 s = digest_to_ascii (MD5 s) ∧
    string_checksum32 s = s.sum % 2 ^ 32 := by
  refine ⟨?_, digest_to_ascii_all_hex _ h1b, ?_, digest_to_ascii_all_hex _ h2b,
    ?_, digest_to_ascii_all_hex _ h3b, rfl, checksum32_eq_sum_mod s⟩
  · rw [string_md5, digest_to_ascii_length, h1]
  · rw [string_sha1, digest_to_ascii_length, h2]
  · rw [string_sha256, digest_to_ascii_length, h3]

theorem c9_string_forms_defined_hex_wit :
    (string_md5 (stubDigest 16) [7]).length = 32 ∧
    (string_sha1 (stubDigest 20) [7]).length = 40 ∧
    (string_sha256 (stubDigest 32) [7]).length = 64 ∧
    (string_md5 (stubDigest 16) [7]).data.all isHexLower = true := by
  have h := c9_string_forms_defined_hex (stubDigest 16) (stubDigest 20)
    (stubDigest 32) [7] (by decide) (by decide) (by decide) (by decide)
    (by decide) (by decide)
  exact ⟨h.1, h.2.2.1, h.2.2.2.2.1, h.2.1⟩

/-- Claim C10: a zero-length request at a valid offset lying inside some
block returns the digest of the empty byte sequence (`H []` for the hash
forms, `0` for checksum32) rather than UNDEFINED; a zero-length request at a
valid offset inside no block returns UNDEFINED. -/
theorem c10_zero_length_request {α : Type} (H : List Nat → α)
    (segs : List Segment) (c : CachedHash α) (cC : CachedHash Nat) (o : Int)
    (hord : SegsOrdered segs)
    (hg : ¬ (o < 0 ∨ (0 : Int) < 0 ∨ o < firstBase segs))
    (hh : ¬ (c.isSet = true ∧ c.offset = o ∧ c.length = 0))
    (hhC : ¬ (cC.isSet = true ∧ cC.offset = o ∧ cC.length = 0)) :
    ((∃ s ∈ segs, s.contMem o) →
      (data_hash H segs c o 0).1 = .value (H []) ∧
      (data_checksum32 segs cC o 0).1 = .value 0) ∧
    ((∀ s ∈ segs, ¬ s.contMem o) →
      (data_hash H segs c o 0).1 = .undef ∧
      (data_checksum32 segs cC o 0).1 = .undef) := by
  constructor
  · intro hex
    have hzl := digestLoop_zero_len segs o [] hord hex
    constructor
    · rw [data_hash_fst_of_miss H segs c o 0 hh, uncachedResult, if_neg hg, hzl]
    · rw [data_checksum32_eq,
        data_hash_fst_of_miss checksum32 segs cC o 0 hhC,
        uncachedResult, if_neg hg, hzl]
      rfl
  · intro hno
    have hzl := digestLoop_no_match segs o 0 [] hno
    constructor
    · rw [data_hash_fst_of_miss H segs c o 0 hh, uncachedResult, if_neg hg, hzl]
    · rw [data_checksum32_eq,
        data_hash_fst_of_miss checksum32 segs cC o 0 hhC,
        uncachedResult, if_neg hg, hzl]

theorem c10_zero_length_request_wit :
    (data_hash checksum32 [⟨0, [3]⟩] ⟨false, 0, 0, 0⟩ 0 0).1 =
      .value (checksum32 []) ∧
    (data_checksum32 [⟨0, [3]⟩] ⟨false, 0, 0, 0⟩ 0 0).1 = .value 0 ∧
    (data_checksum32 [⟨2, [5]⟩] ⟨false, 0, 0, 0⟩ 10 0).1 = .undef := by
  have h1 := c10_zero_length_request checksum32 [⟨0, [3]⟩] ⟨false, 0, 0, 0⟩
    ⟨false, 0, 0, 0⟩ 0 (by decide) (by decide) (by decide) (by decide)
  have h2 := c10_zero_length_request checksum32 [⟨2, [5]⟩] ⟨false, 0, 0, 0⟩
    ⟨false, 0, 0, 0⟩ 10 (by decide) (by decide) (by decide) (by decide)
  exact ⟨(h1.1 ⟨⟨0, [3]⟩, by simp, by decide⟩).1,
    (h1.1 ⟨⟨0, [3]⟩, by simp, by decide⟩).2, (h2.2 (by decide)).2⟩

end YaraHash
